import Mathlib

/-!
Verification of the jsonpath compiler/evaluator (package jsonpath, file
jsonpath.go) against its natural-language specification.

The embedding works over a generic JSON document model mirroring the Go
interface value universe produced by encoding/json: nil, bool, numbers,
strings, slices and string-keyed maps.  Numbers are modelled as exact
integers; every concrete document used in the theorems below carries only
integral numbers, for which the Go fmt %v rendering of the corresponding
float64 coincides with the decimal rendering of the integer.

Strings are processed internally as lists of characters so that every
function is structurally recursive and kernel-reducible; the Go code
indexes strings by byte, which agrees with per-character processing on
the ASCII inputs all claims are about.

External collaborators of the repository are modelled explicitly and are
marked as such in their doc comments: the regular-expression engine
(regexp.Compile / MatchString) is a parameter, and the go/types constant
evaluator used by compare is modelled only on the restricted expression
shapes compare can build.
-/

/-- Character constants written via code points so that quote characters
never appear as character literals. -/
def chSQ : Char := Char.ofNat 39

/-- The double-quote character. -/
def chDQ : Char := Char.ofNat 34

/-- The backslash character. -/
def chBS : Char := Char.ofNat 92

/-- Model of strings.Trim(s, cutset) for a single cut character: removes
leading and trailing occurrences of the character. -/
def chTrimLead (c : Char) : List Char → List Char
  | [] => []
  | x :: rest => if x = c then chTrimLead c rest else x :: rest

def chTrimChar (c : Char) (s : List Char) : List Char :=
  ((chTrimLead c (chTrimLead c s.reverse).reverse))

/-- Model of strings.TrimSpace: removes leading and trailing whitespace. -/
def chTrimWSLead : List Char → List Char
  | [] => []
  | x :: rest => if x.isWhitespace then chTrimWSLead rest else x :: rest

def chTrimWS (s : List Char) : List Char :=
  (chTrimWSLead (chTrimWSLead s.reverse).reverse)

/-- Model of strings.Split(s, sep) for a non-empty separator: greedy
leftmost non-overlapping splitting.  Implemented with a scanner that cuts
the current token as soon as it ends with the separator. -/
def chSplitAux (sep : List Char) (cur : List Char) (acc : List (List Char)) :
    List Char → List (List Char)
  | [] => acc ++ [cur]
  | c :: rest =>
    let cur := cur ++ [c]
    if sep ≠ [] ∧ sep.isSuffixOf cur then
      chSplitAux sep [] (acc ++ [cur.take (cur.length - sep.length)]) rest
    else
      chSplitAux sep cur acc rest

def chSplit (sep : List Char) (s : List Char) : List (List Char) :=
  chSplitAux sep [] [] s

/-- First index of a character in a list, if present (strings.Index for a
one-character needle). -/
def chIndexOf (c : Char) : List Char → Option Nat
  | [] => none
  | x :: rest =>
    if x = c then some 0
    else match chIndexOf c rest with
      | some i => some (i + 1)
      | none => none

/-- Model of strconv.Atoi: optional sign, one or more decimal digits,
value within the signed 64-bit range (out-of-range input is an error in
Go, modelled as none here). -/
def chDigitsToNat : List Char → Nat → Nat
  | [], acc => acc
  | c :: rest, acc => chDigitsToNat rest (acc * 10 + (c.toNat - 48))

def goAtoi (s : List Char) : Option Int :=
  let (neg, digits) : Bool × List Char :=
    match s with
    | '+' :: rest => (false, rest)
    | '-' :: rest => (true, rest)
    | _ => (false, s)
  if digits = [] ∨ ¬ digits.all (fun c => c.isDigit) then none
  else
    let n : Int := (chDigitsToNat digits 0 : Int)
    let v : Int := if neg then -n else n
    if v < -(2 ^ 63) ∨ 2 ^ 63 - 1 < v then none else some v

/-- Model of the acceptance condition of strconv.ParseFloat (64 bit):
optional sign, then either a case-insensitive infinity/NaN word, a decimal
mantissa with optional exponent, or a hexadecimal float.  Underscore
digit separators are not modelled; no claim exercises them. -/
def chIsDigits (s : List Char) : Bool := s ≠ [] && s.all (fun c => c.isDigit)

def chIsHexDigits (s : List Char) : Bool :=
  s ≠ [] && s.all (fun c => c.isDigit || ('a' ≤ c.toLower && c.toLower ≤ 'f'))

def lcEq (s : List Char) (t : List Char) : Bool :=
  (s.map Char.toLower) = t

def splitOnceAux (c : Char) (pre : List Char) :
    List Char → Option (List Char × List Char)
  | [] => none
  | x :: rest =>
    if x = c then some (pre.reverse, rest)
    else splitOnceAux c (x :: pre) rest

/-- Splits at the first occurrence of a character. -/
def splitOnce (c : Char) (s : List Char) : Option (List Char × List Char) :=
  splitOnceAux c [] s

def decMantissaOk (s : List Char) : Bool :=
  match splitOnce '.' s with
  | none => chIsDigits s
  | some (a, b) =>
    (chIsDigits a && (b = [] || chIsDigits b)) ||
    (a = [] && chIsDigits b)

def expPartOk (s : List Char) : Bool :=
  match s with
  | '+' :: rest => chIsDigits rest
  | '-' :: rest => chIsDigits rest
  | _ => chIsDigits s

def decFloatOk (s : List Char) : Bool :=
  match splitOnce 'e' (s.map Char.toLower) with
  | none => decMantissaOk (s.map Char.toLower)
  | some (a, b) => decMantissaOk a && expPartOk b

def hexMantissaOk (s : List Char) : Bool :=
  match splitOnce '.' s with
  | none => chIsHexDigits s
  | some (a, b) =>
    (chIsHexDigits a && (b = [] || chIsHexDigits b)) ||
    (a = [] && chIsHexDigits b)

def hexFloatOk (s : List Char) : Bool :=
  match s with
  | '0' :: x :: rest =>
    x.toLower = 'x' &&
    (match splitOnce 'p' (rest.map Char.toLower) with
     | none => false
     | some (a, b) => hexMantissaOk a && expPartOk b)
  | _ => false

def goParseFloatOk (s : List Char) : Bool :=
  let body : List Char :=
    match s with
    | '+' :: rest => rest
    | '-' :: rest => rest
    | _ => s
  lcEq body ['i', 'n', 'f'] || lcEq body ['i', 'n', 'f', 'i', 'n', 'i', 't', 'y'] ||
  lcEq body ['n', 'a', 'n'] || decFloatOk body || hexFloatOk body

/-!
The generic document model: the Go interface value universe that
encoding/json produces (nil, bool, float64, string, slice, map with
string keys).  Mutual inductives are used instead of nested lists so that
all document traversals are structurally recursive.
-/
mutual
inductive Value where
  | null
  | boolV (b : Bool)
  | num (n : Int)
  | str (s : String)
  | arr (xs : VList)
  | obj (kvs : KVList)
deriving Repr

inductive VList where
  | nil
  | cons (v : Value) (tl : VList)
deriving Repr

inductive KVList where
  | nil
  | cons (k : String) (v : Value) (tl : KVList)
deriving Repr
end

/-- Converts an ordinary list of values into the mutual-inductive spine. -/
def vl : List Value → VList
  | [] => .nil
  | v :: rest => .cons v (vl rest)

/-- Converts an association list into the mutual-inductive object spine. -/
def kv : List (String × Value) → KVList
  | [] => .nil
  | (k, v) :: rest => .cons k v (kv rest)

def vlLength : VList → Nat
  | .nil => 0
  | .cons _ tl => vlLength tl + 1

def vlAppend : VList → VList → VList
  | .nil, ys => ys
  | .cons x tl, ys => .cons x (vlAppend tl ys)

def vlGet : VList → Nat → Option Value
  | .nil, _ => none
  | .cons x _, 0 => some x
  | .cons _ tl, n + 1 => vlGet tl n

def vlDrop : VList → Nat → VList
  | xs, 0 => xs
  | .nil, _ => .nil
  | .cons _ tl, n + 1 => vlDrop tl n

def vlTake : VList → Nat → VList
  | _, 0 => .nil
  | .nil, _ => .nil
  | .cons x tl, n + 1 => .cons x (vlTake tl n)

/-- Key lookup in an object, first binding wins (Go maps have unique
keys, so the order of equal keys never matters). -/
def kvFind : KVList → String → Option Value
  | .nil, _ => none
  | .cons k v tl, key => if k = key then some v else kvFind tl key

/-- Binding update for setByKey: replaces the binding if the key exists,
appends it otherwise (models the Go map assignment jsonMap[key] = value). -/
def kvSet : KVList → String → Value → KVList
  | .nil, key, value => .cons key value .nil
  | .cons k v tl, key, value =>
    if k = key then .cons k value tl else .cons k v (kvSet tl key value)

/-- Error values.  Each constructor corresponds to one distinct error
construction site in jsonpath.go; goPanicErr models a Go runtime panic
(for example a reflect call with a negative index). -/
inductive Err where
  | getFromNullObj
  | notJSONVar
  | notMapVar
  | notSliceVar
  | keyNotFound (key : String)
  | idxOutOfRange (len : Int) (idx : Int)
  | rangeFromOut
  | rangeToOut
  | emptyIdxList
  | rangeArgsLen
  | exprUnsupported
  | multiIdxInFilter
  | pathStartParse
  | pathStartCompile
  | pathStartFilterGet
  | tailTooShort
  | rangeSplitCount
  | atoiBad (s : String)
  | unsupportedOp
  | goEvalBroken
  | goEvalOutsideModel
  | cmpResultNotBool
  | notAString
  | nilPat
  | emptyRule
  | badRegexWrap
  | regexCompileBad
  | filterTypeUnsupported
  | invalidFilterChar (idx : Nat)
  | setNeedOneLevel
  | cannotSetMultiple
  | emptySliceSet
  | setMustPoint
  | cannotPlaceKey
  | notMapDyn
  | notSliceSetTyped
  | goPanicErr (site : String)
deriving DecidableEq, Repr

/-- Embedding of getByIdx (jsonpath.go).  Positive indices must be below
the length; negative indices are taken from the end and must not resolve
below zero. -/
def getByIdx (obj : Value) (idx : Int) : Except Err Value :=
  match obj with
  | .arr xs =>
    let length : Int := (vlLength xs : Int)
    if 0 ≤ idx then
      if length ≤ idx then .error (.idxOutOfRange length idx)
      else
        match vlGet xs idx.toNat with
        | some v => .ok v
        | none => .error (.goPanicErr "getByIdx")
    else
      let xidx : Int := length + idx
      if xidx < 0 then .error (.idxOutOfRange length idx)
      else
        match vlGet xs xidx.toNat with
        | some v => .ok v
        | none => .error (.goPanicErr "getByIdx")
  | _ => .error .notSliceVar

def vlSet : VList → Nat → Value → VList
  | .nil, _, _ => .nil
  | .cons _ tl, 0, v => .cons v tl
  | .cons x tl, n + 1, v => .cons x (vlSet tl n v)

/-- Embedding of setByIdx (jsonpath.go).  Note that the source checks the
wrapped index length+idx for a negative idx but then calls
reflect.Value.Index with the raw negative idx, which panics at run time;
the panic is modelled as the goPanicErr error. -/
def setByIdx (obj : Value) (idx : Int) (val : Value) : Except Err Value :=
  match obj with
  | .arr xs =>
    let length : Int := (vlLength xs : Int)
    if 0 ≤ idx then
      if length ≤ idx then .error (.idxOutOfRange length idx)
      else .ok (.arr (vlSet xs idx.toNat val))
    else
      let xidx : Int := length + idx
      if xidx < 0 then .error (.idxOutOfRange length idx)
      else .error (.goPanicErr "reflect Index negative")
  | _ => .error .notSliceSetTyped

/-- Embedding of getByRange (jsonpath.go).  A nil from bound becomes 0, a
nil to bound becomes length-1; negative bounds are length-relative; the to
bound is inclusive.  reflect.Value.Slice panics when the resolved from
exceeds the resolved to, modelled as goPanicErr. -/
def getByRange (obj : Value) (frm tov : Option Int) : Except Err Value :=
  match obj with
  | .arr xs =>
    let length : Int := (vlLength xs : Int)
    let fv : Int := match frm with | none => 0 | some f => f
    let xfrm : Int := if fv < 0 then length + fv else fv
    let tv : Int := match tov with | none => length - 1 | some t => t
    let xto : Int := if tv < 0 then length + tv + 1 else tv + 1
    if xfrm < 0 ∨ length ≤ xfrm then .error .rangeFromOut
    else if xto < 0 ∨ length < xto then .error .rangeToOut
    else if xto < xfrm then .error (.goPanicErr "reflect Slice")
    else .ok (.arr (vlTake (vlDrop xs xfrm.toNat) (xto - xfrm).toNat))
  | _ => .error .notSliceVar

/-- Embedding of getByKey (jsonpath.go): strict map access, any other
shape is a NotMap error.  Calling it on a nil interface would panic in Go
(reflect.TypeOf(nil).Kind()), an unreachable situation in the evaluator. -/
def getByKey (obj : Value) (key : String) : Except Err Value :=
  match obj with
  | .obj kvs =>
    match kvFind kvs key with
    | some v => .ok v
    | none => .error (.keyNotFound key)
  | .null => .error (.goPanicErr "TypeOf nil")
  | _ => .error .notMapVar

mutual
/-- Embedding of _getByKey (jsonpath.go): map access that additionally
broadcasts over slices, silently skipping elements on which the recursive
lookup fails. -/
def uGetByKey (obj : Value) (key : String) : Except Err Value :=
  match obj with
  | .null => .error .getFromNullObj
  | .obj kvs =>
    match kvFind kvs key with
    | some v => .ok v
    | none => .error (.keyNotFound key)
  | .arr xs => .ok (.arr (uGetByKeyList xs key))
  | _ => .error .notMapDyn

def uGetByKeyList (xs : VList) (key : String) : VList :=
  match xs with
  | .nil => .nil
  | .cons x tl =>
    match uGetByKey x key with
    | .ok v => .cons v (uGetByKeyList tl key)
    | .error _ => uGetByKeyList tl key
end

mutual
/-- Embedding of setByKey (jsonpath.go): functional rendering of the
in-place mutation, returning the updated value; the Set embedding below
additionally records whether a mutating primitive ran.  The generic map
branch (a Go map that is not map with string keys and interface values)
is unreachable in this document model. -/
def setByKey (obj : Value) (key : String) (value : Value) : Except Err Value :=
  match obj with
  | .null => .error .getFromNullObj
  | .obj kvs => .ok (.obj (kvSet kvs key value))
  | .arr xs =>
    match setByKeyList xs key value with
    | .ok ys => .ok (.arr ys)
    | .error e => .error e
  | _ => .error .notMapDyn

def setByKeyList (xs : VList) (key : String) (value : Value) : Except Err VList :=
  match xs with
  | .nil => .ok .nil
  | .cons x tl =>
    match setByKey x key value with
    | .error e => .error e
    | .ok y =>
      match setByKeyList tl key value with
      | .error e => .error e
      | .ok ys => .ok (.cons y ys)
end

/-- Operation arguments: the typed rendering of the untyped interface
args field (nil, a list of indices, a 2-element range pair, or a filter
string). -/
inductive OpArgs where
  | noArgs
  | idxList (l : List Int)
  | rangePair (frm tov : Option Int)
  | filterStr (s : String)
deriving DecidableEq, Repr

/-- One compiled operation (kind, key, arguments). -/
structure Operation where
  op : String
  key : String
  args : OpArgs
deriving DecidableEq, Repr

/-- The compiled path: original text, operation list and the step cursor
that Compiled.next advances in place. -/
structure Compiled where
  path : String
  operations : List Operation
  step : Nat
deriving DecidableEq, Repr

/-- The flush of the pending token at the end of the tokenizer loop,
including the leading-dot strip and the wildcard deduplication. -/
def parseFlush (fragment : List Char) (fragments : List String) : List String :=
  if fragment = [] then fragments
  else
    let frag : List Char :=
      match fragment with
      | '.' :: rest => rest
      | _ => fragment
    if frag ≠ ['*'] then fragments ++ [String.mk frag]
    else if fragments.getLast? ≠ some "*" then fragments ++ [String.mk frag]
    else fragments

/-- The main tokenizer loop of parse (jsonpath.go), beyond the first
character: accumulates a token, treats a lone dot as a separator, turns
a double dot into a wildcard token (without duplicating wildcards), and
keeps consuming through a bracketed run until the first unescaped
closing bracket. -/
def parseLoop (fragments : List String) (fragment : List Char) :
    List Char → List String
  | [] => parseFlush fragment fragments
  | x :: rest =>
    let fragment := fragment ++ [x]
    if fragment = ['.'] then parseLoop fragments fragment rest
    else if fragment = ['.', '.'] then
      let fragments :=
        if fragments.getLast? = some "*" then fragments else fragments ++ ["*"]
      parseLoop fragments ['.'] rest
    else if fragment.contains '[' then
      if x = ']' ∧ ¬ [chBS, ']'].isSuffixOf fragment then
        let piece : List Char :=
          match fragment with
          | '.' :: restf => restf
          | _ => fragment
        parseLoop (fragments ++ [String.mk piece]) [] rest
      else parseLoop fragments fragment rest
    else if x = '.' then
      let body := fragment.dropLast
      let piece : List Char :=
        match body with
        | '.' :: restf => restf
        | _ => body
      parseLoop (fragments ++ [String.mk piece]) ['.'] rest
    else parseLoop fragments fragment rest

/-- Embedding of parse (jsonpath.go): the tokenizer.  The first character
must be the document or current-node root. -/
def parse (query : String) : Except Err (List String) :=
  match query.toList with
  | [] => .ok (parseFlush [] [])
  | c :: rest =>
    if c = '$' ∨ c = '@' then .ok (parseLoop [String.mk [c]] [] rest)
    else .error .pathStartParse

/-- The range branch of parseFragment.  The Go function uses one named
err return for both sides: the error from the from-side Atoi is
overwritten by the to-side Atoi call, and an error is cleared only when
the corresponding side is blank after trimming, so only a non-blank
non-integer to side escapes as a compile error. -/
def parseRangeArgs (key : String) (s t : List Char) :
    String × String × OpArgs × Option Err :=
  let st := chTrimChar ' ' s
  let tt := chTrimChar ' ' t
  let frm : Option Int := goAtoi st
  let tov : Option Int := goAtoi tt
  let err : Option Err :=
    match tov with
    | some _ => none
    | none => if tt = [] then none else some (.atoiBad (String.mk tt))
  ("range", key, .rangePair frm tov, err)

/-- The index branch of parseFragment: every comma-separated piece must
parse as an integer, the first failure aborts the whole token. -/
def parseIdxList (acc : List Int) : List (List Char) → Except Err (List Int)
  | [] => .ok acc
  | p :: rest =>
    match goAtoi (chTrimChar ' ' p) with
    | some i => parseIdxList (acc ++ [i]) rest
    | none => .error (.atoiBad (String.mk (chTrimChar ' ' p)))

/-- Embedding of parseFragment (jsonpath.go), returning the raw 4-tuple
with the partially assigned named returns next to the error, exactly as
the Go function does: Compile consults the error first, while
filterGetFromExplicitPath ignores it and dispatches on the op string. -/
def parseFragmentRaw (tok : String) : String × String × OpArgs × Option Err :=
  if tok = "$" then ("root", "$", .noArgs, none)
  else if tok = "*" then ("scan", "*", .noArgs, none)
  else
    let cs := tok.toList
    match chIndexOf '[' cs with
    | none => ("key", tok, .noArgs, none)
    | some bracketIdx =>
      let key := String.mk (cs.take bracketIdx)
      let tail := cs.drop bracketIdx
      if tail.length < 3 then ("", key, .noArgs, some .tailTooShort)
      else
        let tail := (tail.drop 1).dropLast
        if tail.contains '?' then
          ("filter", key,
           (if ['?', '('].isPrefixOf tail ∧ [')'].isSuffixOf tail then
              .filterStr (String.mk (chTrimChar ' ' ((tail.drop 2).dropLast)))
            else .noArgs), none)
        else if tail.contains ':' then
          match chSplit [':'] tail with
          | [a, b] => parseRangeArgs key a b
          | _ => ("range", key, .noArgs, some .rangeSplitCount)
        else if tail = ['*'] then ("range", key, .rangePair none none, none)
        else
          match parseIdxList [] (chSplit [','] tail) with
          | .ok l => ("idx", key, .idxList l, none)
          | .error e => ("", "", .noArgs, some e)

/-- The compilation loop of Compile: each fragment is parsed into an
operation, the first parse error aborts. -/
def compileOps : List String → Except Err (List Operation)
  | [] => .ok []
  | f :: rest =>
    match parseFragmentRaw f with
    | (_, _, _, some e) => .error e
    | (op, key, args, none) =>
      match compileOps rest with
      | .ok ops => .ok (⟨op, key, args⟩ :: ops)
      | .error e => .error e

/-- Embedding of Compile (jsonpath.go). -/
def Compile (path : String) : Except Err Compiled :=
  match parse path with
  | .error e => .error e
  | .ok fragments =>
    match fragments.head? with
    | none => .error (.goPanicErr "fragments empty")
    | some h =>
      if h ≠ "@" ∧ h ≠ "$" then .error .pathStartCompile
      else
        match compileOps fragments.tail with
        | .ok ops => .ok ⟨path, ops, 0⟩
        | .error e => .error e

/-- The step loop of filterGetFromExplicitPath: only key and single-index
steps are supported inside a filter operand; note that the parse error of
parseFragment is ignored by the Go caller, which dispatches on the op
string (an errored fragment carries an op outside key and idx and lands
in the unsupported-expression branch). -/
def filterSteps (xobj : Value) : List String → Except Err Value
  | [] => .ok xobj
  | s :: rest =>
    let raw := parseFragmentRaw s
    let op := raw.1
    let key := raw.2.1
    let args := raw.2.2.1
    if op = "key" then
      match uGetByKey xobj key with
      | .error e => .error e
      | .ok v => filterSteps v rest
    else if op = "idx" then
      match args with
      | .idxList l =>
        match l with
        | [i] =>
          (match uGetByKey xobj key with
           | .error e => .error e
           | .ok v =>
             match getByIdx v i with
             | .error e => .error e
             | .ok v2 => filterSteps v2 rest)
        | _ => .error .multiIdxInFilter
      | _ => .error (.goPanicErr "type assertion")
    else .error .exprUnsupported

/-- Embedding of filterGetFromExplicitPath (jsonpath.go). -/
def filterGetFromExplicitPath (obj : Value) (path : String) : Except Err Value :=
  match parse path with
  | .error e => .error e
  | .ok steps =>
    match steps.head? with
    | none => .error (.goPanicErr "steps empty")
    | some h =>
      if h ≠ "@" ∧ h ≠ "$" then .error .pathStartFilterGet
      else filterSteps obj steps.tail

/-- Embedding of getByPath (jsonpath.go): a filter operand starting with
the current-node or root prefix is resolved as an explicit sub-path, any
other operand is the literal string itself. -/
def getByPath (obj root : Value) (path : String) : Except Err Value :=
  if ['@', '.'].isPrefixOf path.toList then filterGetFromExplicitPath obj path
  else if ['$', '.'].isPrefixOf path.toList then filterGetFromExplicitPath root path
  else .ok (.str path)

/-- The external regular-expression engine (Go package regexp), supplied
as a parameter of the evaluation functions: compileOk tells whether a
pattern compiles and matchString tells whether a compiled pattern matches a
string.  The theorems below either quantify over the engine or
instantiate it with trivialRe. -/
structure RegexEngine where
  compileOk : String → Bool
  matchString : String → String → Bool

/-- A concrete engine for closed evaluations: every pattern compiles and
nothing matches.  The closed theorems below never reach matching. -/
def trivialRe : RegexEngine := ⟨fun _ => true, fun _ _ => false⟩

/-- Embedding of compileRegexp (jsonpath.go): checks the slash-wrapped
form, then hands the inner pattern to the engine. -/
def compileRegexp (re : RegexEngine) (rule : String) : Except Err String :=
  let runes := rule.toList
  if runes.length ≤ 2 then .error .emptyRule
  else if runes.head? ≠ some '/' ∨ runes.getLast? ≠ some '/' then .error .badRegexWrap
  else
    let inner := String.mk ((runes.drop 1).dropLast)
    if re.compileOk inner then .ok inner else .error .regexCompileBad

/-- Embedding of evalRegexp (jsonpath.go): the left operand sub-path must
resolve to a string, otherwise the string-only-match error is returned. -/
def evalRegexp (re : RegexEngine) (obj root : Value) (lp : String)
    (pat : Option String) : Except Err Bool :=
  match pat with
  | none => .error .nilPat
  | some p =>
    match getByPath obj root lp with
    | .error e => .error e
    | .ok (.str v) => .ok (re.matchString p v)
    | .ok _ => .error .notAString

/-- One filter conjunct (lhs, operator, rhs). -/
structure FilterExpression where
  lp : String
  op : String
  rp : String
deriving DecidableEq, Repr

/-- The 3-stage field assignment switch of parseFilter. -/
def stageAssign (stage : Nat) (tmp lp op rp : List Char) :
    List Char × List Char × List Char :=
  match stage with
  | 0 => (tmp, op, rp)
  | 1 => (lp, tmp, rp)
  | 2 => (lp, op, tmp)
  | _ => (lp, op, rp)

/-- The per-conjunct scanner of parseFilter (jsonpath.go): a 3-stage
cursor over lhs, operator and rhs with a quote flag under which spaces
are kept as literal content.  The Go scanner never resets the quote flag
on a closing quote; the embedding reproduces that. -/
def scanSub (idx : Nat) (tmp lp op rp : List Char) (stage : Nat) (emb : Bool) :
    List Char → Except Err FilterExpression
  | [] =>
    if tmp ≠ [] then
      match stage with
      | 0 => .ok ⟨String.mk tmp, "exists", String.mk rp⟩
      | 1 => .ok ⟨String.mk lp, String.mk tmp, String.mk rp⟩
      | 2 => .ok ⟨String.mk lp, String.mk op, String.mk tmp⟩
      | _ => .ok ⟨String.mk lp, String.mk op, String.mk rp⟩
    else .ok ⟨String.mk lp, String.mk op, String.mk rp⟩
  | c :: rest =>
    if c = chSQ then
      if emb = false then scanSub (idx + 1) tmp lp op rp stage true rest
      else
        match stageAssign stage tmp lp op rp with
        | (lp, op, rp) => scanSub (idx + 1) [] lp op rp stage emb rest
    else if c = ' ' then
      if emb = true then scanSub (idx + 1) (tmp ++ [c]) lp op rp stage emb rest
      else
        match stageAssign stage tmp lp op rp with
        | (lp, op, rp) =>
          if stage + 1 > 2 then .error (.invalidFilterChar idx)
          else scanSub (idx + 1) [] lp op rp (stage + 1) emb rest
    else scanSub (idx + 1) (tmp ++ [c]) lp op rp stage emb rest

/-- The conjunct loop of parseFilter: split on the literal conjunction
operator, trim each conjunct, scan it. -/
def parseFilterList : List (List Char) → Except Err (List FilterExpression)
  | [] => .ok []
  | sub :: rest =>
    match scanSub 0 [] [] [] [] 0 false (chTrimWS sub) with
    | .error e => .error e
    | .ok e =>
      match parseFilterList rest with
      | .ok es => .ok (e :: es)
      | .error e2 => .error e2

/-- Embedding of parseFilter (jsonpath.go). -/
def parseFilter (filter : String) : Except Err (List FilterExpression) :=
  parseFilterList (chSplit ['&', '&'] filter.toList)

/-- Lexicographic (code-point, equivalently UTF-8 byte) order on
character lists; the order go/types gives untyped string constants. -/
def chLexLt : List Char → List Char → Bool
  | [], [] => false
  | [], _ :: _ => true
  | _ :: _, [] => false
  | x :: xs, y :: ys =>
    if x < y then true else if y < x then false else chLexLt xs ys

mutual
/-- Model of the fmt %v rendering of a document value.  Numbers are
rendered as decimal integers, which coincides with the float64 rendering
whenever the value is integral and small, as in every document in this
file; nil renders in angle brackets, slices space-separated in square
brackets.  fmt renders map keys in sorted order; the model renders them
in binding order, a difference no theorem below exercises since no
compared operand is a map. -/
def goFormatV : Value → List Char
  | .null => ['<', 'n', 'i', 'l', '>']
  | .boolV b => if b then "true".toList else "false".toList
  | .num n => (toString n).toList
  | .str s => s.toList
  | .arr xs => '[' :: (goFormatVL xs ++ [']'])
  | .obj kvs => "map[".toList ++ goFormatVK kvs ++ [']']

def goFormatVL : VList → List Char
  | .nil => []
  | .cons v .nil => goFormatV v
  | .cons v tl => goFormatV v ++ ' ' :: goFormatVL tl

def goFormatVK : KVList → List Char
  | .nil => []
  | .cons k v .nil => k.toList ++ ':' :: goFormatV v
  | .cons k v tl => k.toList ++ ':' :: goFormatV v ++ ' ' :: goFormatVK tl
end

/-- Embedding of isNumber (jsonpath.go): a Go numeric type, or a string
accepted by strconv.ParseFloat. -/
def isNumber : Value → Bool
  | .num _ => true
  | .str s => goParseFloatOk s.toList
  | _ => false

/-- Characters that put a double-quoted Go literal outside this model of
go/types Eval: a backslash starts an escape sequence and a control
character needs one, so operands containing them are reported as outside
the model instead of being given a possibly wrong value. -/
def goStrLitExotic (s : List Char) : Bool :=
  s.contains chBS || s.any (fun c => c.toNat < 32 || c.toNat = 127)

/-- Model of go/types Eval on the quoted string comparison expressions
that compare builds.  A raw double quote in either operand makes the
built expression unparseable, a definite error in Go; exotic characters
are outside the model; otherwise untyped string constants compare
byte-lexicographically. -/
def goTypesEvalStr (a b : List Char) (op : String) : Except Err Bool :=
  if a.contains chDQ || b.contains chDQ then .error .goEvalBroken
  else if goStrLitExotic a || goStrLitExotic b then .error .goEvalOutsideModel
  else if op = "<" then .ok (chLexLt a b)
  else if op = "<=" then .ok (chLexLt a b || a == b)
  else if op = "==" then .ok (a == b)
  else if op = ">=" then .ok (chLexLt b a || a == b)
  else if op = ">" then .ok (chLexLt b a)
  else .error .cmpResultNotBool

/-- Parses an optionally signed decimal integer or decimal fixed-point
literal into the exact rational constant go/types computes; exponent and
hexadecimal forms are left outside the model. -/
def goNumLit (s : List Char) : Option Rat :=
  let signBody : Bool × List Char :=
    match s with
    | '+' :: rest => (false, rest)
    | '-' :: rest => (true, rest)
    | _ => (false, s)
  let neg := signBody.1
  let body := signBody.2
  match splitOnce '.' body with
  | none =>
    if chIsDigits body then
      let q : Rat := (chDigitsToNat body 0 : Rat)
      some (if neg then -q else q)
    else none
  | some (a, b) =>
    if chIsDigits a && chIsDigits b then
      let q : Rat := (chDigitsToNat a 0 : Rat) + (chDigitsToNat b 0 : Rat) / ((10 : Rat) ^ b.length)
      some (if neg then -q else q)
    else none

/-- Model of go/types Eval on the unquoted numeric comparison
expressions that compare builds: both rendered operands must be plain
decimal literals, which are compared as exact rational constants (go
constant arithmetic is exact, not floating-point). -/
def goTypesEvalNum (a b : List Char) (op : String) : Except Err Bool :=
  match goNumLit a, goNumLit b with
  | some qa, some qb =>
    if op = "<" then .ok (decide (qa < qb))
    else if op = "<=" then .ok (decide (qa ≤ qb))
    else if op = "==" then .ok (decide (qa = qb))
    else if op = ">=" then .ok (decide (qb ≤ qa))
    else if op = ">" then .ok (decide (qb < qa))
    else .error .cmpResultNotBool
  | _, _ => .error .goEvalOutsideModel

/-- Embedding of compare (jsonpath.go).  The operator guard is the
source switch; the built expression (unquoted when both operands count as
numeric, double-quoted otherwise) is evaluated through the go/types
models above. -/
def goCompare (obj1 obj2 : Value) (op : String) : Except Err Bool :=
  if op = "<" ∨ op = "<=" ∨ op = "==" ∨ op = ">=" ∨ op = ">" then
    if isNumber obj1 && isNumber obj2 then
      goTypesEvalNum (goFormatV obj1) (goFormatV obj2) op
    else
      goTypesEvalStr (goFormatV obj1) (goFormatV obj2) op
  else .error .unsupportedOp

/-- Is the interface value nil (the Go comparison left != nil). -/
def isNilV : Value → Bool
  | .null => true
  | _ => false

/-- Embedding of evalFilter (jsonpath.go). -/
def evalFilter (re : RegexEngine) (obj root : Value) (lp op rp : String) :
    Except Err Bool :=
  match getByPath obj root lp with
  | .error e => .error e
  | .ok left =>
    if op = "exists" then .ok (! isNilV left)
    else if op = "=~" then
      match compileRegexp re rp with
      | .error e => .error e
      | .ok p => evalRegexp re obj root lp (some p)
    else
      match getByPath obj root rp with
      | .error e => .error e
      | .ok right => goCompare left right op

/-- The conjunction loop of getFiltered over one element: the error of a
conjunct evaluation is discarded and the element merely fails to match. -/
def exprMatches (re : RegexEngine) (tmp root : Value) :
    List FilterExpression → Bool
  | [] => true
  | e :: rest =>
    match evalFilter re tmp root e.lp e.op e.rp with
    | .ok true => exprMatches re tmp root rest
    | .ok false => false
    | .error _ => false

def filterSlice (re : RegexEngine) (root : Value)
    (exprs : List FilterExpression) : VList → VList
  | .nil => .nil
  | .cons x tl =>
    if exprMatches re x root exprs then .cons x (filterSlice re root exprs tl)
    else filterSlice re root exprs tl

/-- The map branch of getFiltered iterates the map values; Go map
iteration order is unspecified, modelled here as binding order. -/
def filterMapVals (re : RegexEngine) (root : Value)
    (exprs : List FilterExpression) : KVList → VList
  | .nil => .nil
  | .cons _ v tl =>
    if exprMatches re v root exprs then .cons v (filterMapVals re root exprs tl)
    else filterMapVals re root exprs tl

/-- Embedding of getFiltered (jsonpath.go). -/
def getFiltered (re : RegexEngine) (obj root : Value) (filter : String) :
    Except Err VList :=
  match parseFilter filter with
  | .error e => .error e
  | .ok exprs =>
    if exprs.length = 0 then .ok .nil
    else
      match obj with
      | .arr xs => .ok (filterSlice re root exprs xs)
      | .obj kvs => .ok (filterMapVals re root exprs kvs)
      | .null => .error (.goPanicErr "TypeOf nil")
      | _ => .error .filterTypeUnsupported

/-- The multi-index collection loop shared by Lookup and _Lookup: every
listed index is resolved, the first failure aborts. -/
def collectIdxs (obj : Value) : List Int → Except Err VList
  | [] => .ok .nil
  | i :: rest =>
    match getByIdx obj i with
    | .error e => .error e
    | .ok v =>
      match collectIdxs obj rest with
      | .error e => .error e
      | .ok vs => .ok (.cons v vs)

/-- The map-branch operation dispatch of Compiled.Lookup: one operation
applied to a map fragment, returning the new fragment together with the
isArray flag the branch assigns (the named isArray return variable is
false on entry to Lookup and is only set by the multi-index, range and
filter branches). -/
def lookupMapOp (re : RegexEngine) (obj : Value) (operation : Operation) :
    Except Err (Value × Bool) :=
  if operation.op = "key" then
    match getByKey obj operation.key with
    | .error e => .error e
    | .ok v => .ok (v, false)
  else if operation.op = "idx" then
    let kres : Except Err Value :=
      if operation.key.length > 0 then getByKey obj operation.key else .ok obj
    match kres with
    | .error e => .error e
    | .ok obj2 =>
      match operation.args with
      | .idxList l =>
        if l.length > 1 then
          match collectIdxs obj2 l with
          | .error e => .error e
          | .ok vs => .ok (.arr vs, true)
        else
          match l with
          | [i] =>
            (match getByIdx obj2 i with
             | .error e => .error e
             | .ok v => .ok (v, false))
          | _ => .error .emptyIdxList
      | _ => .error (.goPanicErr "type assertion")
  else if operation.op = "range" then
    let kres : Except Err Value :=
      if operation.key.length > 0 then getByKey obj operation.key else .ok obj
    match kres with
    | .error e => .error e
    | .ok obj2 =>
      match operation.args with
      | .rangePair f t =>
        (match getByRange obj2 f t with
         | .error e => .error e
         | .ok v => .ok (v, true))
      | _ => .error .rangeArgsLen
  else if operation.op = "filter" then
    match getByKey obj operation.key with
    | .error e => .error e
    | .ok obj2 =>
      match operation.args with
      | .filterStr fs =>
        (match getFiltered re obj2 obj2 fs with
         | .error e => .error e
         | .ok vs => .ok (.arr vs, true))
      | _ => .error (.goPanicErr "type assertion")
  else .error .exprUnsupported

mutual
/-- Embedding of Compiled.Lookup (jsonpath.go).  Returns the triple of
named Go results (res, isArray, err) together with the net increment the
call applies to the shared step cursor: Lookup advances the cursor of the
pointer receiver in place through Compiled.next, and on the array branch
the mutated cursor is threaded from one element to the next, exactly as
the shared pointer is in Go.  The fuel argument only serves the
termination checker; one unit is consumed per recursive call, every
theorem below supplies ample fuel, and the out-of-fuel branch is
unreachable there. -/
def lookupStep (re : RegexEngine) (fuel : Nat) (ops : List Operation)
    (step : Nat) (obj : Value) : (Value × Bool × Option Err) × Nat :=
  match obj with
  | .null => ((.null, false, none), 0)
  | .arr xs =>
    (match fuel with
     | 0 => ((.null, false, some (.goPanicErr "fuel")), 0)
     | fuel + 1 => lookupArr re fuel ops step xs .nil none)
  | .obj kvs =>
    (match fuel with
     | 0 => ((.null, false, some (.goPanicErr "fuel")), 0)
     | fuel + 1 =>
       match ops[step]? with
       | none => ((.null, false, some (.goPanicErr "step out of range")), 0)
       | some operation =>
         match lookupMapOp re (.obj kvs) operation with
         | .error e => ((.null, false, some e), 0)
         | .ok (obj2, isArr) =>
           if step = ops.length - 1 then ((obj2, isArr, none), 0)
           else
             let r := lookupStep re fuel ops (step + 1) obj2
             (r.1, r.2 + 1))
  | _ => ((.null, false, some .notJSONVar), 0)

/-- The array-broadcast loop of Compiled.Lookup: every element is looked
up with the remainder that the current (mutated) cursor selects, failing
elements are skipped but leave the named err variable set, array results
are spliced in and scalars appended, and the aggregate is tagged as an
array. -/
def lookupArr (re : RegexEngine) (fuel : Nat) (ops : List Operation)
    (step : Nat) (xs : VList) (acc : VList) (lastE : Option Err) :
    (Value × Bool × Option Err) × Nat :=
  match fuel with
  | 0 => ((.null, false, some (.goPanicErr "fuel")), 0)
  | fuel + 1 =>
    match xs with
    | .nil => ((.arr acc, true, lastE), 0)
    | .cons x tl =>
      let r1 := lookupStep re fuel ops step x
      match r1.1 with
      | (value, isArr, none) =>
        let acc2 : VList :=
          match value, isArr with
          | .arr ys, true => vlAppend acc ys
          | _, _ => vlAppend acc (.cons value .nil)
        let r2 := lookupArr re fuel ops (step + r1.2) tl acc2 none
        (r2.1, r1.2 + r2.2)
      | (_, _, some e) =>
        let r2 := lookupArr re fuel ops (step + r1.2) tl acc (some e)
        (r2.1, r1.2 + r2.2)
end

/-- Runs Compiled.Lookup on a compiled value: the Go result triple plus
the compiled value as it stands after the call, with its mutated step. -/
def lookupC (re : RegexEngine) (fuel : Nat) (c : Compiled) (obj : Value) :
    (Value × Bool × Option Err) × Compiled :=
  let r := lookupStep re fuel c.operations c.step obj
  (r.1, { c with step := c.step + r.2 })

/-- Embedding of the package-level Get: Compile, then Lookup, a non-nil
error discarding the value. -/
def GetP (re : RegexEngine) (fuel : Nat) (obj : Value) (path : String) :
    Except Err (Value × Bool) :=
  match Compile path with
  | .error e => .error e
  | .ok c =>
    match lookupC re fuel c obj with
    | ((value, isArr, none), _) => .ok (value, isArr)
    | ((_, _, some e), _) => .error e

/-- Embedding of _Lookup (jsonpath.go): the iterative lookup that Set
uses to resolve the parent of the final step; it walks the full
operation list without the shared step cursor. -/
def uLookupOps (re : RegexEngine) (obj : Value) :
    List Operation → Except Err Value
  | [] => .ok obj
  | s :: rest =>
    if s.op = "key" then
      match uGetByKey obj s.key with
      | .error e => .error e
      | .ok v => uLookupOps re v rest
    else if s.op = "idx" then
      let kres : Except Err Value :=
        if s.key.length > 0 then uGetByKey obj s.key else .ok obj
      match kres with
      | .error e => .error e
      | .ok obj2 =>
        match s.args with
        | .idxList l =>
          if l.length > 1 then
            match collectIdxs obj2 l with
            | .error e => .error e
            | .ok vs => uLookupOps re (.arr vs) rest
          else
            match l with
            | [i] =>
              (match getByIdx obj2 i with
               | .error e => .error e
               | .ok v => uLookupOps re v rest)
            | _ => .error .emptyIdxList
        | _ => .error (.goPanicErr "type assertion")
    else if s.op = "range" then
      let kres : Except Err Value :=
        if s.key.length > 0 then uGetByKey obj s.key else .ok obj
      match kres with
      | .error e => .error e
      | .ok obj2 =>
        match s.args with
        | .rangePair f t =>
          (match getByRange obj2 f t with
           | .error e => .error e
           | .ok v => uLookupOps re v rest)
        | _ => .error .rangeArgsLen
    else if s.op = "filter" then
      match uGetByKey obj s.key with
      | .error e => .error e
      | .ok obj2 =>
        match s.args with
        | .filterStr fs =>
          (match getFiltered re obj2 obj2 fs with
           | .error e => .error e
           | .ok vs => uLookupOps re (.arr vs) rest)
        | _ => .error (.goPanicErr "type assertion")
    else .error .exprUnsupported

/-- The final-step dispatch of Compiled.Set: a key step mutates through
setByKey, a single-index step through setByIdx after resolving the
optional key, a multi-index step is refused before any mutation, and any
other step kind cannot be a set target.  The Boolean records whether a
mutating primitive (setByKey or setByIdx) was invoked, which is exactly
when the Go original mutates the document the caller supplied. -/
def setLastStep (parent : Value) (lastStep : Operation)
    (val : Value) : Except Err Unit × Bool :=
  if lastStep.op = "key" then
    (match setByKey parent lastStep.key val with
     | .ok _ => (.ok (), true)
     | .error e => (.error e, true))
  else if lastStep.op = "idx" then
    let kres : Except Err Value :=
      if lastStep.key.length > 0 then uGetByKey parent lastStep.key
      else .ok parent
    match kres with
    | .error e => (.error e, false)
    | .ok parent2 =>
      match lastStep.args with
      | .idxList l =>
        if l.length > 1 then (.error .cannotSetMultiple, false)
        else
          match l with
          | [i] =>
            (match setByIdx parent2 i val with
             | .ok _ => (.ok (), true)
             | .error e => (.error e, true))
          | _ => (.error .emptySliceSet, false)
      | _ => (.error (.goPanicErr "type assertion"), false)
  else (.error .setMustPoint, false)

/-- Embedding of Compiled.Set (jsonpath.go): resolve the parent of the
final step with the cursor-free _Lookup over all but the last operation,
then dispatch on the final step. -/
def SetOps (re : RegexEngine) (ops : List Operation) (obj val : Value) :
    Except Err Unit × Bool :=
  if ops.length < 1 then (.error .setNeedOneLevel, false)
  else
    match uLookupOps re obj ops.dropLast with
    | .error e => (.error e, false)
    | .ok parent =>
      match ops.getLast? with
      | none => (.error (.goPanicErr "empty ops"), false)
      | some lastStep => setLastStep parent lastStep val

/-- Embedding of the package-level Set: Compile then Compiled.Set. -/
def SetPath (re : RegexEngine) (obj : Value) (jpath : String) (val : Value) :
    Except Err Unit × Bool :=
  match Compile jpath with
  | .error e => (.error e, false)
  | .ok c => SetOps re c.operations obj val

theorem vl_length (xs : List Value) : vlLength (vl xs) = xs.length := by
  induction xs with
  | nil => rfl
  | cons x tl ih => simp [vl, vlLength, ih]

theorem vl_get (xs : List Value) (n : Nat) : vlGet (vl xs) n = xs.get? n := by
  induction xs generalizing n with
  | nil => cases n <;> rfl
  | cons x tl ih =>
    cases n with
    | zero => rfl
    | succ m => simpa [vl, vlGet] using ih m

theorem vl_take_length (xs : List Value) : vlTake (vl xs) xs.length = vl xs := by
  induction xs with
  | nil => rfl
  | cons x tl ih => simp [vl, vlTake, List.length_cons, ih]

/-- Claim C10: Lookup on a nil document returns value nil, isArray false
and no error, and leaves the compiled path (in particular its cursor)
untouched, whatever the operations are. -/
theorem lookup_nil_doc (re : RegexEngine) (fuel : Nat) (c : Compiled) :
    lookupC re fuel c .null = ((.null, false, none), c) := by
  cases fuel <;> rfl

/-- Specification-side indexing following the wording of claim C3: the
element at position i when 0 <= i < n, the element at position n+i when
i < 0 and n+i >= 0, and nothing otherwise. -/
def pySpecIdx (xs : List Value) (i : Int) : Option Value :=
  if 0 ≤ i ∧ i < (xs.length : Int) then xs.get? i.toNat
  else if i < 0 ∧ 0 ≤ (xs.length : Int) + i then xs.get? ((xs.length : Int) + i).toNat
  else none

theorem getByIdx_vl (xs : List Value) (i : Int) :
    getByIdx (.arr (vl xs)) i =
      if 0 ≤ i then
        (if (xs.length : Int) ≤ i then .error (.idxOutOfRange (xs.length : Int) i)
         else match xs.get? i.toNat with
              | some v => .ok v
              | none => .error (.goPanicErr "getByIdx"))
      else
        (if (xs.length : Int) + i < 0 then .error (.idxOutOfRange (xs.length : Int) i)
         else match xs.get? ((xs.length : Int) + i).toNat with
              | some v => .ok v
              | none => .error (.goPanicErr "getByIdx")) := by
  simp only [getByIdx, vl_length, vl_get]

/-- Claim C3: getByIdx performs Python-style indexing with negative
wraparound, failing with the index-out-of-range error exactly when the
index is out of bounds after wraparound; and the lookup of a single-index
path on an object holding an array equals that direct indexing. -/
theorem getByIdx_python (xs : List Value) (i : Int) :
    (getByIdx (.arr (vl xs)) i =
      (match pySpecIdx xs i with
       | some v => .ok v
       | none => .error (.idxOutOfRange (xs.length : Int) i))) ∧
    (∀ (re : RegexEngine) (fuel : Nat),
      lookupStep re (fuel + 1) [⟨"idx", "a", .idxList [i]⟩] 0
          (.obj (kv [("a", .arr (vl xs))])) =
        (match getByIdx (.arr (vl xs)) i with
         | .ok v => ((v, false, none), 0)
         | .error e => ((.null, false, some e), 0))) := by
  constructor
  · rw [getByIdx_vl]
    unfold pySpecIdx
    by_cases h0 : 0 ≤ i
    · by_cases hlt : i < (xs.length : Int)
      · have hi : i.toNat < xs.length := by omega
        rw [List.get?_eq_get hi, if_pos h0, if_neg (by omega : ¬ (xs.length : Int) ≤ i),
          if_pos (⟨h0, hlt⟩ : 0 ≤ i ∧ i < (xs.length : Int))]
      · rw [if_pos h0, if_pos (by omega : (xs.length : Int) ≤ i),
          if_neg (by omega : ¬ (0 ≤ i ∧ i < (xs.length : Int))),
          if_neg (by omega : ¬ (i < 0 ∧ 0 ≤ (xs.length : Int) + i))]
    · by_cases hwrap : 0 ≤ (xs.length : Int) + i
      · have hi : ((xs.length : Int) + i).toNat < xs.length := by omega
        rw [List.get?_eq_get hi, if_neg h0,
          if_neg (by omega : ¬ ((xs.length : Int) + i < 0)),
          if_neg (by omega : ¬ (0 ≤ i ∧ i < (xs.length : Int))),
          if_pos (⟨by omega, hwrap⟩ : i < 0 ∧ 0 ≤ (xs.length : Int) + i)]
      · rw [if_neg h0, if_pos (by omega : (xs.length : Int) + i < 0),
          if_neg (by omega : ¬ (0 ≤ i ∧ i < (xs.length : Int))),
          if_neg (by omega : ¬ (i < 0 ∧ 0 ≤ (xs.length : Int) + i))]
  · intro re fuel
    have hk : ("a" : String).length = 1 := rfl
    cases h : getByIdx (.arr (vl xs)) i <;>
      simp [lookupStep, lookupMapOp, getByKey, kvFind, kv, h, hk]

/-- The document of the C1 and C2 evaluations. -/
def c1doc : Value := .obj (kv [("a", .obj (kv [("b", .num 1)]))])

/-- The operations of the path $.a.b. -/
def c1ops : List Operation := [⟨"key", "a", .noArgs⟩, ⟨"key", "b", .noArgs⟩]

/-- Claim C1 (code bug): Lookup mutates the step field of the compiled
path through Compiled.next.  Compiling $.a.b yields step 0; one
successful Lookup over a document where the path resolves returns the
value but leaves the compiled path with step 1, and running Lookup again
on the same compiled value and the same document then fails where a
fresh compilation succeeds, so a compiled path cannot be re-evaluated. -/
theorem lookup_mutates_step :
    Compile "$.a.b" = .ok ⟨"$.a.b", c1ops, 0⟩ ∧
    lookupC trivialRe 10 ⟨"$.a.b", c1ops, 0⟩ c1doc
      = ((.num 1, false, none), ⟨"$.a.b", c1ops, 1⟩) ∧
    lookupC trivialRe 10 ⟨"$.a.b", c1ops, 1⟩ c1doc
      = ((.null, false, some (.keyNotFound "b")), ⟨"$.a.b", c1ops, 1⟩) :=
  ⟨rfl, rfl, rfl⟩

/-- The array document of the C2 evaluation: two elements on which the
remainder $.a.b resolves to 1 and 2 respectively. -/
def c2doc : Value :=
  .arr (vl [.obj (kv [("a", .obj (kv [("b", .num 1)]))]),
            .obj (kv [("a", .obj (kv [("b", .num 2)]))])])

/-- Claim C2 (code bug): the array broadcast does not apply the remainder
of the path to each element independently.  Evaluating the operations of
$.a.b against a two-element array where each element resolves (to 1 and
2) returns only the first result: the first element advances the shared
step cursor to the last operation, so the second element is evaluated
against the shortened remainder .b, fails, and is skipped — and its
failure leaks out through the named err result, so the aggregate is not
even an error-free success.  Independent application would return both
values with no error. -/
theorem lookup_broadcast_shared_cursor :
    lookupC trivialRe 10 ⟨"$.a.b", c1ops, 0⟩ c2doc
      = ((.arr (vl [.num 1]), true, some (.keyNotFound "b")),
         ⟨"$.a.b", c1ops, 1⟩) := rfl

/-- Claim C6 (code bug): setByIdx on a negative in-range index panics
instead of writing.  The source computes the wrapped index length+idx
and bound-checks it, but then calls reflect Index with the raw negative
idx, a run-time panic; a positive index is written in place as the claim
describes. -/
theorem setByIdx_negative_panics :
    setByIdx (.arr (vl [.num 1, .num 2, .num 3])) (-1) (.num 9)
      = .error (.goPanicErr "reflect Index negative") ∧
    setByIdx (.arr (vl [.num 1, .num 2, .num 3])) 1 (.num 9)
      = .ok (.arr (vl [.num 1, .num 9, .num 3])) := ⟨rfl, rfl⟩

/-- Claim C5 (code bug): compare re-serializes its operands into a Go
expression and evaluates it with go/types; a double quote inside a
string operand breaks the built expression, so comparing the equal
strings a-quote-b against each other errors instead of returning true,
violating the contract that non-numeric operands compare as strings.
The second conjunct shows the intended lexicographic behaviour on plain
strings, and the third shows the operator guard of the claim. -/
theorem compare_quote_breaks :
    goCompare (.str (String.mk ['a', chDQ, 'b'])) (.str (String.mk ['a', chDQ, 'b'])) "=="
      = .error .goEvalBroken ∧
    goCompare (.str "abc") (.str "abd") "<" = .ok true ∧
    goCompare (.num 1) (.num 2) "!=" = .error .unsupportedOp :=
  ⟨rfl, rfl, rfl⟩

/-- Claim C4 (counterexample): on an empty array the range with from 0
and open to does not return the whole array: the resolved from bound 0
fails the check from < n and the call errors, both at the accessor and
through a full lookup of $.a[0:]. -/
theorem getByRange_empty_fails :
    getByRange (.arr (vl [])) (some 0) none = .error .rangeFromOut ∧
    GetP trivialRe 10 (.obj (kv [("a", .arr (vl []))])) "$.a[0:]"
      = .error .rangeFromOut := ⟨rfl, rfl⟩

/-- Claim C4 (amended): get_by_range resolves a missing from bound to 0
and a missing to bound to n-1; negative bounds are length-relative, the
to bound inclusively so; resolved bounds outside 0 <= from < n or
0 <= to+1 <= n fail with the respective range error; and the range with
from 0 and open to returns the whole array in order provided the array
is non-empty (on an empty array the from check itself fails). -/
theorem getByRange_bounds (xs : List Value) (frm tov : Option Int) :
    (getByRange (.arr (vl xs)) none tov = getByRange (.arr (vl xs)) (some 0) tov) ∧
    (getByRange (.arr (vl xs)) frm none
      = getByRange (.arr (vl xs)) frm (some ((xs.length : Int) - 1))) ∧
    (∀ f : Int, f < 0 → 0 ≤ (xs.length : Int) + f →
      getByRange (.arr (vl xs)) (some f) tov
        = getByRange (.arr (vl xs)) (some ((xs.length : Int) + f)) tov) ∧
    (∀ t : Int, t < 0 → 0 ≤ (xs.length : Int) + t →
      getByRange (.arr (vl xs)) frm (some t)
        = getByRange (.arr (vl xs)) frm (some ((xs.length : Int) + t))) ∧
    (∀ f : Int, 0 ≤ f → (xs.length : Int) ≤ f →
      getByRange (.arr (vl xs)) (some f) tov = .error .rangeFromOut) ∧
    (∀ f : Int, f < 0 → (xs.length : Int) + f < 0 →
      getByRange (.arr (vl xs)) (some f) tov = .error .rangeFromOut) ∧
    (∀ t : Int, 1 ≤ xs.length → 0 ≤ t → (xs.length : Int) < t + 1 →
      getByRange (.arr (vl xs)) (some 0) (some t) = .error .rangeToOut) ∧
    (1 ≤ xs.length →
      getByRange (.arr (vl xs)) (some 0) none = .ok (.arr (vl xs))) := by
  refine ⟨rfl, ?_, ?_, ?_, ?_, ?_, ?_, ?_⟩
  · simp only [getByRange, vl_length]
  · intro f hf hwrap
    have h2 : ¬ ((xs.length : Int) + f < 0) := by omega
    simp only [getByRange, vl_length]
    simp [hf, h2]
  · intro t ht hwrap
    have h2 : ¬ ((xs.length : Int) + t < 0) := by omega
    simp only [getByRange, vl_length]
    simp [ht, h2]
  · intro f h0 hn
    have h0' : ¬ (f < 0) := by omega
    simp only [getByRange, vl_length]
    simp [h0', hn]
  · intro f hf hn
    simp only [getByRange, vl_length]
    simp [hf, hn]
  · intro t hn1 ht0 htn
    have ha : ¬ ((xs.length : Int) ≤ 0) := by omega
    have hb : ¬ ((0 : Int) < 0) := by omega
    have hc : ¬ (t < 0) := by omega
    have hd : ¬ (t + 1 < 0) := by omega
    simp only [getByRange, vl_length]
    simp [ha, hb, hc, hd, htn]
  · intro hn
    have ha : ¬ ((xs.length : Int) ≤ 0) := by omega
    have hb : ¬ ((0 : Int) < 0) := by omega
    have hc : ¬ ((xs.length : Int) - 1 < 0) := by omega
    have hd : ¬ ((xs.length : Int) - 1 + 1 < 0) := by omega
    have he2 : ¬ ((xs.length : Int) < (xs.length : Int) - 1 + 1) := by omega
    have hnat : ((xs.length : Int) - 1 + 1 - 0).toNat = xs.length := by omega
    have hf2 : ¬ ((xs.length : Int) < 0) := by omega
    simp only [getByRange, vl_length]
    simp [ha, hb, hc, hd, he2, hnat, hf2, vlDrop, vl_take_length]

/-- Claim C4 (witness): the amended range facts at a concrete array of
length 3: from 0 with open to returns the whole array, and the negative
from -2 resolves to from 1. -/
theorem getByRange_bounds_witness :
    getByRange (.arr (vl [.num 1, .num 2, .num 3])) (some 0) none
      = .ok (.arr (vl [.num 1, .num 2, .num 3])) ∧
    getByRange (.arr (vl [.num 1, .num 2, .num 3])) (some (-2)) none
      = getByRange (.arr (vl [.num 1, .num 2, .num 3])) (some 1) none := by
  constructor
  · exact (getByRange_bounds [.num 1, .num 2, .num 3] none none).2.2.2.2.2.2.2
      (by decide)
  · have h := (getByRange_bounds [.num 1, .num 2, .num 3] none none).2.2.1 (-2)
      (by decide) (by decide)
    simpa using h

/-- Claim C7 (counterexample): a non-blank non-integer to side of a range
token is a compile error rather than an unbounded bound: $.a[1:y] fails
to compile with the integer-conversion error (the from side 1 having
been parsed normally). -/
theorem parseRange_to_side_error :
    Compile "$.a[1:y]" = .error (.atoiBad "y") ∧
    parseFragmentRaw "a[1:y]"
      = ("range", "a", .rangePair (some 1) none, some (.atoiBad "y")) :=
  ⟨rfl, rfl⟩

/-- Claim C7 (amended): for a token whose bracket body splits on the
colon into exactly two sides, the operation is a Range whose bounds are
the two sides parsed independently (None when blank or non-integer); the
error dance of the shared named err return means the call succeeds
whenever the to side is blank or an integer — in particular a non-blank
non-integer from side silently becomes None then — while a non-blank
non-integer to side escapes as the conversion compile error. -/
theorem parseRange_sides (key : String) (s t : List Char) :
    ((parseRangeArgs key s t).2.2.1
      = .rangePair (goAtoi (chTrimChar ' ' s)) (goAtoi (chTrimChar ' ' t))) ∧
    (chTrimChar ' ' t = [] ∨ (goAtoi (chTrimChar ' ' t)).isSome →
      (parseRangeArgs key s t).2.2.2 = none) ∧
    (chTrimChar ' ' t ≠ [] → goAtoi (chTrimChar ' ' t) = none →
      (parseRangeArgs key s t).2.2.2
        = some (.atoiBad (String.mk (chTrimChar ' ' t)))) ∧
    (∀ tok : String, tok ≠ "$" → tok ≠ "*" →
      ∀ bracketIdx : Nat, chIndexOf '[' tok.toList = some bracketIdx →
      3 ≤ (tok.toList.drop bracketIdx).length →
      ((tok.toList.drop bracketIdx).drop 1).dropLast.contains '?' = false →
      ((tok.toList.drop bracketIdx).drop 1).dropLast.contains ':' = true →
      chSplit [':'] (((tok.toList.drop bracketIdx).drop 1).dropLast) = [s, t] →
      parseFragmentRaw tok
        = parseRangeArgs (String.mk (tok.toList.take bracketIdx)) s t) := by
  refine ⟨rfl, ?_, ?_, ?_⟩
  · intro h
    rcases h with h | h
    · simp [parseRangeArgs, h]
      cases goAtoi ([] : List Char) <;> rfl
    · obtain ⟨v, hv⟩ := Option.isSome_iff_exists.mp h
      simp [parseRangeArgs, hv]
  · intro hne hA
    simp [parseRangeArgs, hA, hne]
  · intro tok h1 h2 bracketIdx hb hlen3 hq hc hsplit
    have hlen3' : ¬ ((tok.toList.drop bracketIdx).length < 3) := by omega
    unfold parseFragmentRaw
    rw [if_neg h1, if_neg h2]
    simp only [hb, if_neg hlen3', hq, Bool.false_eq_true, if_false, hc,
      eq_self_iff_true, if_true, hsplit]

/-- Claim C7 (witness): the amended range parsing at the concrete token
a[x:2]: the tie sends the token to the range branch, the non-integer
from side silently becomes the unbounded bound, the integer to side
parses, and there is no compile error. -/
theorem parseRange_sides_witness :
    parseFragmentRaw "a[x:2]" = ("range", "a", .rangePair none (some 2), none) ∧
    (parseRangeArgs "a" ['x'] ['2']).2.2.2 = none := by
  have h := parseRange_sides "a" ['x'] ['2']
  have htie := h.2.2.2 "a[x:2]" (by decide) (by decide) 1 rfl (by decide)
    (by decide) (by decide) rfl
  exact ⟨htie.trans rfl, h.2.1 (Or.inr (by decide))⟩

/-- The filtered element, the containing array and the document of the
claim C8 evaluations. -/
def c8elem : Value := .obj (kv [("b", .num 1)])

def c8arr : Value := .arr (vl [c8elem])

def c8doc : Value := .obj (kv [("a", c8arr)])

/-- Claim C8 (counterexample): a filter conjunct using the regex-match
operator whose lhs resolves to the non-string 1 makes evalFilter return
the string-only-match error, but getFiltered discards per-element
errors, so the full lookup of the filter path silently excludes the
element and succeeds with an empty array instead of failing. -/
theorem filter_regexp_nonstring_swallowed :
    evalFilter trivialRe c8elem c8arr "@.b" "=~" "/x/" = .error .notAString ∧
    GetP trivialRe 10 c8doc "$.a[?(@.b =~ /x/)]" = .ok (.arr .nil, true) :=
  ⟨rfl, rfl⟩

/-- Claim C8 (amended): for any regular-expression engine on which the
pattern compiles, the conjunct with the regex-match operator against the
non-string field evaluates to the string-only-match error inside
evalFilter, yet Get on the filter path succeeds with the element
silently excluded, because getFiltered drops the per-element error. -/
theorem filter_regexp_nonstring (re : RegexEngine) (h : re.compileOk "x" = true) :
    evalFilter re c8elem c8arr "@.b" "=~" "/x/" = .error .notAString ∧
    GetP re 10 c8doc "$.a[?(@.b =~ /x/)]" = .ok (.arr .nil, true) := by
  have hc : compileRegexp re "/x/"
      = (if re.compileOk "x" = true then .ok "x" else .error .regexCompileBad) := rfl
  rw [h] at hc
  simp only [eq_self_iff_true, if_true] at hc
  have he : evalFilter re c8elem c8arr "@.b" "=~" "/x/"
      = (match compileRegexp re "/x/" with
         | .error e => (.error e : Except Err Bool)
         | .ok _ => .error .notAString) := rfl
  rw [hc] at he
  refine ⟨he, ?_⟩
  have hm : exprMatches re c8elem c8arr [⟨"@.b", "=~", "/x/"⟩] = false := by
    show (match evalFilter re c8elem c8arr "@.b" "=~" "/x/" with
          | .ok true => exprMatches re c8elem c8arr []
          | .ok false => false
          | .error _ => false) = false
    rw [he]
  show Except.ok
      (Value.arr
        (if exprMatches re c8elem c8arr [⟨"@.b", "=~", "/x/"⟩] = true then
          VList.cons c8elem VList.nil
         else VList.nil), true)
    = .ok (.arr .nil, true)
  rw [hm]
  simp

/-- Claim C8 (witness): the amended statement instantiated at the
concrete engine on which every pattern compiles. -/
theorem filter_regexp_nonstring_witness :
    evalFilter trivialRe c8elem c8arr "@.b" "=~" "/x/" = .error .notAString ∧
    GetP trivialRe 10 c8doc "$.a[?(@.b =~ /x/)]" = .ok (.arr .nil, true) :=
  filter_regexp_nonstring trivialRe rfl

/-- Claim C9 (counterexample): Set through a final two-index step does
not always fail with the ambiguous-set error: on the empty object the
key of the final step fails to resolve first, so Set fails with the
key-not-found error (the document still left unmodified). -/
theorem set_multi_idx_other_error :
    SetPath trivialRe (.obj .nil) "$.a[0,1]" (.num 9)
      = (.error (.keyNotFound "a"), false) ∧
    (Err.keyNotFound "a" ≠ .cannotSetMultiple) := ⟨rfl, by decide⟩

/-- Claim C9 (amended): with a final Index operation carrying two or
more indices, Set never invokes a mutating primitive — the document is
always left completely unmodified — and always fails: with the
cannot-set-multiple error as soon as the parent of the final step
resolves and the key part of the final step resolves (or is empty), and
with the underlying resolution error otherwise. -/
theorem set_multi_idx (re : RegexEngine) (pre : List Operation) (key : String)
    (idxs : List Int) (doc val : Value) (h2 : 2 ≤ idxs.length) :
    ((SetOps re (pre ++ [⟨"idx", key, .idxList idxs⟩]) doc val).2 = false) ∧
    (∃ e, (SetOps re (pre ++ [⟨"idx", key, .idxList idxs⟩]) doc val).1 = .error e) ∧
    (∀ parent, uLookupOps re doc pre = .ok parent →
      (key = "" → (SetOps re (pre ++ [⟨"idx", key, .idxList idxs⟩]) doc val).1
        = .error .cannotSetMultiple) ∧
      (∀ p2, uGetByKey parent key = .ok p2 →
        (SetOps re (pre ++ [⟨"idx", key, .idxList idxs⟩]) doc val).1
          = .error .cannotSetMultiple)) := by
  have hlen : ¬ ((pre ++ [(⟨"idx", key, .idxList idxs⟩ : Operation)]).length < 1) := by
    simp
  have hS : SetOps re (pre ++ [⟨"idx", key, .idxList idxs⟩]) doc val
      = (match uLookupOps re doc pre with
         | .error e => (.error e, false)
         | .ok parent => setLastStep parent ⟨"idx", key, .idxList idxs⟩ val) := by
    unfold SetOps
    rw [if_neg hlen, List.dropLast_concat, List.getLast?_concat]
  have hmulti : 1 < idxs.length := by omega
  have hL : ∀ parent, setLastStep parent ⟨"idx", key, .idxList idxs⟩ val
      = (match (if (key.length > 0) then uGetByKey parent key else .ok parent) with
         | .error e => (.error e, false)
         | .ok _ => (.error .cannotSetMultiple, false)) := by
    intro parent
    unfold setLastStep
    rw [if_neg (by decide : ¬ ("idx" = "key")), if_pos (rfl : "idx" = "idx")]
    cases hk : (if (key.length > 0) then uGetByKey parent key else .ok parent) with
    | error e => rfl
    | ok parent2 => simp [if_pos hmulti]
  cases hp : uLookupOps re doc pre with
  | error e =>
    have hSe : SetOps re (pre ++ [⟨"idx", key, .idxList idxs⟩]) doc val
        = (.error e, false) := by rw [hS, hp]
    refine ⟨by rw [hSe], ⟨e, by rw [hSe]⟩, ?_⟩
    intro parent' hparent'
    exact Except.noConfusion hparent'
  | ok parent =>
    have hSo : SetOps re (pre ++ [⟨"idx", key, .idxList idxs⟩]) doc val
        = (match (if (key.length > 0) then uGetByKey parent key else .ok parent) with
           | .error e2 => (.error e2, false)
           | .ok _ => (.error .cannotSetMultiple, false)) := by
      rw [hS, hp]
      exact hL parent
    cases hk : (if (key.length > 0) then uGetByKey parent key else .ok parent) with
    | error e2 =>
      have hSe : SetOps re (pre ++ [⟨"idx", key, .idxList idxs⟩]) doc val
          = (.error e2, false) := by rw [hSo, hk]
      refine ⟨by rw [hSe], ⟨e2, by rw [hSe]⟩, ?_⟩
      intro parent' hparent'
      injection hparent' with hpp
      constructor
      · intro hkey
        exfalso
        rw [hkey] at hk
        rw [if_neg (by decide : ¬ (("" : String).length > 0))] at hk
        exact Except.noConfusion hk
      · intro p2 hp2
        exfalso
        by_cases hkl : key.length > 0
        · rw [if_pos hkl] at hk
          rw [← hpp] at hp2
          rw [hp2] at hk
          exact Except.noConfusion hk
        · rw [if_neg hkl] at hk
          exact Except.noConfusion hk
    | ok p2 =>
      have hSm : SetOps re (pre ++ [⟨"idx", key, .idxList idxs⟩]) doc val
          = (.error .cannotSetMultiple, false) := by rw [hSo, hk]
      exact ⟨by rw [hSm], ⟨.cannotSetMultiple, by rw [hSm]⟩,
        fun parent' _ => ⟨fun _ => by rw [hSm], fun _ _ => by rw [hSm]⟩⟩

/-- Claim C9 (witness): the amended statement at a concrete document on
which the final-step key resolves: Set on a final two-index step fails
with the cannot-set-multiple error and invokes no mutating primitive. -/
theorem set_multi_idx_witness :
    (SetOps trivialRe [⟨"idx", "a", .idxList [0, 1]⟩]
        (.obj (kv [("a", .arr (vl [.num 1, .num 2]))])) (.num 9)).1
      = .error .cannotSetMultiple ∧
    (SetOps trivialRe [⟨"idx", "a", .idxList [0, 1]⟩]
        (.obj (kv [("a", .arr (vl [.num 1, .num 2]))])) (.num 9)).2 = false := by
  have h := set_multi_idx trivialRe [] "a" [0, 1]
    (.obj (kv [("a", .arr (vl [.num 1, .num 2]))])) (.num 9) (by decide)
  exact ⟨(h.2.2 _ rfl).2 (.arr (vl [.num 1, .num 2])) rfl, h.1⟩
